import Mathlib

/-!
# Verification of the tbcompare comparison engine

Shallow embedding of the core of `tbcompare` (src/comparison.rs and
src/file_utils.rs) and proofs about it.

Modelling conventions:
* Text is Lean `String` / `List Char`.  Rust's `String` ordering is
  lexicographic over UTF-8 bytes, which coincides with lexicographic
  order over Unicode scalar values (code points), so the model compares
  `Char` code points.
* A file on disk is modelled by `FsFile`: its path, whether it exists,
  the result of the metadata (size) query, and the decoded line content
  (the sequence of lines produced by `BufRead::lines`, which never
  contain `'\n'`).  `none` in the latter two fields models a failing
  metadata query resp. a failing open/decode/read.
* The external collaborators (the `sort` utility and the `diff`/`fc`
  utility) are inputs of the model: a `SortExec` value gives the outcome
  of invoking the external sort on given file content, a `CmdOutcome`
  value gives the outcome of invoking the whole-file compare utility.
* Rust's stable `Vec::sort` is modelled by insertion sort, which agrees
  with every stable sort for a total preorder.
* The `HashSet` differences collected into `Vec`s have unspecified
  iteration order, so `FileDifferences` carries `Finset`s.
-/

deriving instance DecidableEq for Except

namespace TbCompare

/-! ## Characters and whitespace (Rust `char::is_whitespace`) -/

/-- The Unicode `White_Space` property, the predicate used by Rust's
`str::trim` / `char::is_whitespace`. -/
def rustIsWhitespace (c : Char) : Bool :=
  c.val == 0x09 || c.val == 0x0A || c.val == 0x0B || c.val == 0x0C ||
  c.val == 0x0D || c.val == 0x20 || c.val == 0x85 || c.val == 0xA0 ||
  c.val == 0x1680 ||
  (decide ((0x2000 : UInt32) ≤ c.val) && decide (c.val ≤ (0x200A : UInt32))) ||
  c.val == 0x2028 || c.val == 0x2029 || c.val == 0x202F || c.val == 0x205F ||
  c.val == 0x3000

/-- Both-ends whitespace trim on a character list: Rust `str::trim`. -/
def trimData (cs : List Char) : List Char :=
  ((cs.dropWhile rustIsWhitespace).reverse.dropWhile rustIsWhitespace).reverse

/-- Rust `str::trim` (followed by `to_string`). -/
def rustTrim (s : String) : String := String.mk (trimData s.data)

/-! ## Splitting on a separator (Rust `str::split`, `str::lines`) -/

/-- Split a character list at every occurrence of `sep`.  This is Rust's
`str::split(sep)`: the result is nonempty and keeps empty pieces,
e.g. `"a__" ↦ ["a", "", ""]`. -/
def splitSep (sep : Char) : List Char → List (List Char)
  | [] => [[]]
  | c :: cs =>
    if c = sep then [] :: splitSep sep cs
    else
      match splitSep sep cs with
      | [] => [[c]]
      | p :: ps => (c :: p) :: ps

/-- Drop a final empty piece (both Rust `str::lines` and POSIX line
splitting do not produce a line for a trailing newline). -/
def dropLastEmpty (ps : List (List Char)) : List (List Char) :=
  if ps.getLast? = some [] then ps.dropLast else ps

/-- Strip one trailing `'\r'` (Rust `str::lines` treats `"\r\n"` as a
line terminator). -/
def stripCr (l : List Char) : List Char :=
  if l.getLast? = some '\r' then l.dropLast else l

/-- POSIX-style line splitting (what the external `sort` utility applies
to its input file): split on `'\n'`, no line for a trailing newline. -/
def posixLines (s : String) : List String :=
  (dropLastEmpty (splitSep '\n' s.data)).map String.mk

/-- Rust `str::lines`: like `posixLines` but additionally stripping one
trailing `'\r'` from every line. -/
def rustLines (s : String) : List String :=
  (dropLastEmpty (splitSep '\n' s.data)).map fun p => String.mk (stripCr p)

/-- The file content produced by `writeln!`-ing every line: each line
followed by a single `'\n'`. -/
def writeLines (ls : List String) : String :=
  String.mk ((ls.map fun l => l.data ++ ['\n']).flatten)

/-! ## Lexicographic order on strings (Rust `Ord` on `String`) -/

/-- Lexicographic comparison of character lists by code point; equals
Rust's byte-lexicographic `Ord` on `str` because UTF-8 preserves the
code-point order. -/
def dataLeB : List Char → List Char → Bool
  | [], _ => true
  | _ :: _, [] => false
  | a :: as, b :: bs =>
    if a.toNat < b.toNat then true
    else if b.toNat < a.toNat then false
    else dataLeB as bs

/-- Rust's total order on `String`, as a boolean relation. -/
def strLeB (a b : String) : Bool := dataLeB a.data b.data

/-- Rust's total order on `String`, as a `Prop` relation. -/
def strLe (a b : String) : Prop := strLeB a b = true

instance : DecidableRel strLe := fun a b => inferInstanceAs (Decidable (strLeB a b = true))

/-- Rust's stable `Vec::<String>::sort()`.  A stable comparison sort is
extensionally unique, so insertion sort is a faithful model. -/
def sortLines (ls : List String) : List String := List.insertionSort strLe ls

/-! ## Error kinds (the distinguishable `anyhow` failure classes) -/

/-- The failure classes of the engine.  `ioError` covers open / read /
decode failures, `sortError` an external-sort failure, `processError` a
failure to launch the external compare utility, `notFound` the explicit
existence check of `compare_files`. -/
inductive FError where
  | ioError : FError
  | sortError : FError
  | processError : FError
  | notFound : String → FError
deriving DecidableEq, Repr

/-! ## The file model -/

/-- A file on disk, as seen by the engine: its path, whether it exists
(`Path::exists`), the outcome of the size query (`fs::metadata`, `none`
models a failing query) and the decoded line content (`none` models a
failing open / decode / line read; the lines carry no `'\n'` because
they come from `BufRead::lines`). -/
structure FsFile where
  path : String
  present : Bool
  metadata : Option Nat
  decoded : Option (List String)
deriving DecidableEq, Repr

/-- `MAX_MEMORY_FILE_SIZE` from src/file_utils.rs: 100 MiB. -/
def MAX_MEMORY_FILE_SIZE : Nat := 100 * 1024 * 1024

/-- `is_file_too_large` from src/file_utils.rs: query the metadata and
compare the size against `MAX_MEMORY_FILE_SIZE`. -/
def is_file_too_large (f : FsFile) : Except FError Bool :=
  match f.metadata with
  | none => .error .ioError
  | some n => .ok (decide (n > MAX_MEMORY_FILE_SIZE))

/-- The behaviour of the external `sort` utility on given input-file
content: `none` models any failure (launch failure, nonzero exit,
non-UTF-8 output), `some out` the standard output of a successful run. -/
def SortExec : Type := String → Option String

/-- Modelled from the spec: the external whole-line sort utility (POSIX
`sort`, an external collaborator whose code is not part of this
repository) reads the lines of its input file and writes them back
lexicographically sorted, one per line, to its standard output. -/
def specSortUtility : SortExec :=
  fun s => some (writeLines (List.insertionSort strLe (posixLines s)))

/-- An external sort utility whose invocation always fails. -/
def badSortUtility : SortExec := fun _ => none

/-! ## src/file_utils.rs -/

/-- `internal_sort` from src/file_utils.rs: Rust's built-in (stable)
sort, modelled functionally. -/
def internal_sort (ls : List String) : List String := sortLines ls

/-- `external_sort` from src/file_utils.rs: on Windows fall back to
`internal_sort`; otherwise write the lines to a temporary file (one per
line, `writeln!`), run the external sort utility on it, fail with
`SortError` when it fails, and read the sorted lines back from its
standard output (Rust `str::lines`). -/
def external_sort (isWindows : Bool) (sc : SortExec) (ls : List String) :
    Except FError (List String) :=
  if isWindows then .ok (internal_sort ls)
  else
    match sc (writeLines ls) with
    | none => .error .sortError
    | some out => .ok (rustLines out)

/-- The header-skip-and-trim normalisation shared by both ingestion
paths of src/file_utils.rs: drop line 0 unconditionally, trim every
remaining line. -/
def processLines (ds : List String) : List String := (ds.drop 1).map rustTrim

/-- `external_sort_large_file` from src/file_utils.rs: decode line by
line, skip the header, trim and accumulate; on Windows sort in-process
and return; otherwise write the lines to a temporary file, run the
external sort utility on it (there is no line-count threshold on this
path), and read the sorted lines back. -/
def external_sort_large_file (isWindows : Bool) (sc : SortExec) (f : FsFile) :
    Except FError (List String) :=
  match f.decoded with
  | none => .error .ioError
  | some ds =>
    let lines := processLines ds
    if isWindows then .ok (internal_sort lines)
    else
      match sc (writeLines lines) with
      | none => .error .sortError
      | some out => .ok (rustLines out)

/-- The small-file tail of `read_and_process_file` (src/file_utils.rs
lines 75-106): detect the encoding and decode (any failure is an
`IoError`), skip the header, trim, then sort — externally when more
than 100000 lines accumulated, in-process otherwise. -/
def read_small (isWindows : Bool) (sc : SortExec) (f : FsFile) :
    Except FError (List String) :=
  match f.decoded with
  | none => .error .ioError
  | some ds =>
    let lines := processLines ds
    if lines.length > 100000 then external_sort isWindows sc lines
    else .ok (sortLines lines)

/-- `read_and_process_file` from src/file_utils.rs: when the size query
succeeds and reports more than 100 MiB, take the large-file path; in
every other case — including a *failing* size query, whose error the
`if let Ok(...)` pattern silently discards — continue with the
small-file path. -/
def read_and_process_file (isWindows : Bool) (sc : SortExec) (f : FsFile) :
    Except FError (List String) :=
  match is_file_too_large f with
  | .ok true => external_sort_large_file isWindows sc f
  | .ok false => read_small isWindows sc f
  | .error _ => read_small isWindows sc f

/-! ## src/comparison.rs : compare_files -/

/-- `FileDifferences` from src/comparison.rs.  The Rust struct holds
`Vec<String>`s collected from `HashSet::difference` in unspecified
iteration order; the model keeps the underlying sets. -/
structure FileDifferences where
  only_in_first : Finset String
  only_in_second : Finset String
deriving DecidableEq

/-- The set-difference tail of `compare_files` (src/comparison.rs lines
102-130): build a set from each line list, compute both set
differences, return `none` when both are empty. -/
def compare_lines (lines1 lines2 : List String) : Option FileDifferences :=
  let set1 := lines1.toFinset
  let set2 := lines2.toFinset
  let only_in_first := set1 \ set2
  let only_in_second := set2 \ set1
  if only_in_first = ∅ ∧ only_in_second = ∅ then none
  else some ⟨only_in_first, only_in_second⟩

/-- The slow path of `compare_files`: read and process both files (the
first failure is propagated), then compare the line sets. -/
def slow_compare (isWindows : Bool) (sc : SortExec) (f1 f2 : FsFile) :
    Except FError (Option FileDifferences) :=
  match read_and_process_file isWindows sc f1 with
  | .error e => .error e
  | .ok l1 =>
    match read_and_process_file isWindows sc f2 with
    | .error e => .error e
    | .ok l2 => .ok (compare_lines l1 l2)

/-- The outcome of invoking the external whole-file compare utility
(`diff -q` on Unix, `fc.exe /L` on Windows): `launchFailure` models
`Command::output()` returning `Err` (the utility could not be spawned),
`ran identical stderrEmpty` a completed run (`identical` is exit status
0; `stderrEmpty` records whether anything was written to standard
error, which only influences logging). -/
inductive CmdOutcome where
  | launchFailure : CmdOutcome
  | ran : Bool → Bool → CmdOutcome
deriving DecidableEq, Repr

/-- `compare_files` from src/comparison.rs: check both paths exist
(`NotFoundError` naming the missing one), invoke the external compare
utility — a launch failure is propagated by the `?` operator, exit 0
means identical (`none`), any other completed run falls through — and
finally run the slow set comparison.  Both the Unix (`diff`) and the
Windows (`fc.exe`) branches have this shape. -/
def compare_files (isWindows : Bool) (sc : SortExec) (dout : CmdOutcome)
    (f1 f2 : FsFile) : Except FError (Option FileDifferences) :=
  if f1.present = false then .error (.notFound f1.path)
  else if f2.present = false then .error (.notFound f2.path)
  else
    match dout with
    | .launchFailure => .error .processError
    | .ran true _ => .ok none
    | .ran false _ => slow_compare isWindows sc f1 f2

/-! ## src/comparison.rs : generate_file_pairs -/

/-- A directory entry, as consumed by `generate_file_pairs`: its full
path and its stem (`Path::file_stem` composed with `to_str`, a standard
library computation on the file name, taken as given data; `none`
models a file name without a stem or one that is not valid Unicode). -/
structure FileEnt where
  path : String
  stem : Option String
deriving DecidableEq, Repr

/-- The pattern check and key extraction of `generate_file_pairs`
(src/comparison.rs lines 172-177 and 188-193): split the stem on `'_'`;
the name matches when there are at least 6 parts, the first is `"SC"`
and the last is `"Z"`; the key is then
`format!("{}_{}_{}", parts[1], parts[2], parts[len-2])`. -/
def stemKey (stem : String) : Option String :=
  let parts := splitSep '_' stem.data
  if 6 ≤ parts.length ∧ parts.getD 0 [] = ['S', 'C'] ∧
      parts.getD (parts.length - 1) [] = ['Z'] then
    some (String.mk (parts.getD 1 [] ++ '_' ::
      (parts.getD 2 [] ++ '_' :: parts.getD (parts.length - 2) [])))
  else none

/-- The matching key of a directory entry, if its stem exists and
matches the pattern. -/
def entKey (e : FileEnt) : Option String := e.stem.bind stemKey

/-- The key seen as the triple of segments `(parts[1], parts[2],
parts[len-2])` — the `FilePairKey` of the spec.  The code joins the
three segments with `'_'` instead; the two views are interchangeable
because split segments never contain the separator. -/
def stemTriple (stem : String) : Option (List Char × List Char × List Char) :=
  let parts := splitSep '_' stem.data
  if 6 ≤ parts.length ∧ parts.getD 0 [] = ['S', 'C'] ∧
      parts.getD (parts.length - 1) [] = ['Z'] then
    some (parts.getD 1 [], parts.getD 2 [], parts.getD (parts.length - 2) [])
  else none

/-- The `FilePairKey` triple of a directory entry. -/
def entTriple (e : FileEnt) : Option (List Char × List Char × List Char) :=
  e.stem.bind stemTriple

/-- The dir2 lookup map of `generate_file_pairs` (src/comparison.rs
lines 167-183), applied to a key: the `HashMap` is populated by
inserting every matching dir2 entry in listing order, a later insert
silently overwriting an earlier one with the same key. -/
def dir2MapLookup (files2 : List FileEnt) (k : String) : Option FileEnt :=
  files2.foldl
    (fun acc e =>
      match entKey e with
      | some k2 => if k2 = k then some e else acc
      | none => acc)
    none

/-- The last entry of `fs` whose key is `k` — the value `dir2MapLookup`
actually returns (last-write-wins). -/
def lastWithKey (fs : List FileEnt) (k : String) : Option FileEnt :=
  fs.reverse.find? fun e => entKey e == some k

/-- `generate_file_pairs` from src/comparison.rs, given the two
directory listings: for each dir1 entry in listing order whose stem
matches the pattern, emit a pair with the dir2 entry stored in the
lookup map under the same key, if any; entries without a match and
non-matching names are silently dropped. -/
def generate_file_pairs (files1 files2 : List FileEnt) :
    List (FileEnt × FileEnt) :=
  files1.filterMap fun e1 =>
    match entKey e1 with
    | some k1 => (dir2MapLookup files2 k1).map fun e2 => (e1, e2)
    | none => none

/-! ## Lemmas: the string order is total and transitive -/

theorem dataLeB_total (a b : List Char) : dataLeB a b = true ∨ dataLeB b a = true := by
  induction a generalizing b with
  | nil => left; rfl
  | cons x xs ih =>
    cases b with
    | nil => right; rfl
    | cons y ys =>
      by_cases h1 : x.toNat < y.toNat
      · left; simp [dataLeB, h1]
      · by_cases h2 : y.toNat < x.toNat
        · right; simp [dataLeB, h2]
        · rcases ih ys with h | h
          · left; simp [dataLeB, h1, h2, h]
          · right; simp [dataLeB, h1, h2, h]

theorem dataLeB_trans (a b c : List Char) (h1 : dataLeB a b = true)
    (h2 : dataLeB b c = true) : dataLeB a c = true := by
  induction a generalizing b c with
  | nil => rfl
  | cons x xs ih =>
    cases b with
    | nil => simp [dataLeB] at h1
    | cons y ys =>
      cases c with
      | nil => simp [dataLeB] at h2
      | cons z zs =>
        simp only [dataLeB] at h1 h2 ⊢
        split_ifs at h1 h2 ⊢ <;>
          first
          | rfl
          | omega
          | exact ih ys zs h1 h2

instance : IsTotal String strLe := ⟨fun a b => dataLeB_total a.data b.data⟩

instance : IsTrans String strLe := ⟨fun a b c => dataLeB_trans a.data b.data c.data⟩

/-- `sortLines` permutes its input. -/
theorem sortLines_perm (ls : List String) : (sortLines ls).Perm ls :=
  List.perm_insertionSort strLe ls

/-- `sortLines` sorts lexicographically (w.r.t. the Rust string order). -/
theorem sortLines_sorted (ls : List String) : List.Sorted strLe (sortLines ls) :=
  List.sorted_insertionSort strLe ls

/-- Permutations induce equal `toFinset`s. -/
theorem toFinset_of_perm (l l' : List String) (h : l.Perm l') :
    l.toFinset = l'.toFinset := by
  ext a
  simp [List.mem_toFinset, h.mem_iff]

/-! ## Lemmas: splitting and the write/read-back roundtrip -/

theorem splitSep_ne_nil (sep : Char) (cs : List Char) : splitSep sep cs ≠ [] := by
  cases cs with
  | nil => simp [splitSep]
  | cons c cs =>
    simp only [splitSep]
    split
    · simp
    · split <;> simp

theorem splitSep_append (sep : Char) (l rest : List Char) (h : sep ∉ l) :
    splitSep sep (l ++ sep :: rest) = l :: splitSep sep rest := by
  induction l with
  | nil => simp [splitSep]
  | cons c l ih =>
    have hc : ¬ c = sep := fun hcs => h (hcs ▸ List.mem_cons_self c l)
    have h' : sep ∉ l := fun hs => h (List.mem_cons_of_mem c hs)
    rw [List.cons_append]
    simp only [splitSep, if_neg hc]
    rw [ih h']

theorem splitSep_no_sep (sep : Char) (cs : List Char) :
    ∀ p ∈ splitSep sep cs, sep ∉ p := by
  induction cs with
  | nil =>
    intro p hp
    simp [splitSep] at hp
    simp [hp]
  | cons c cs ih =>
    intro p hp
    simp only [splitSep] at hp
    by_cases hc : c = sep
    · rw [if_pos hc] at hp
      rcases List.mem_cons.mp hp with rfl | hp
      · simp
      · exact ih p hp
    · rw [if_neg hc] at hp
      cases hsp : splitSep sep cs with
      | nil => exact absurd hsp (splitSep_ne_nil _ _)
      | cons q qs =>
        rw [hsp] at hp
        rcases List.mem_cons.mp hp with rfl | hp
        · intro hmem
          rcases List.mem_cons.mp hmem with rfl | hmem
          · exact hc rfl
          · exact ih q (hsp ▸ List.mem_cons_self q qs) hmem
        · exact ih p (hsp ▸ List.mem_cons_of_mem q hp)

theorem dropLastEmpty_cons (p : List Char) (ps : List (List Char)) (h : ps ≠ []) :
    dropLastEmpty (p :: ps) = p :: dropLastEmpty ps := by
  cases ps with
  | nil => exact absurd rfl h
  | cons q qs =>
    unfold dropLastEmpty
    rw [List.getLast?_cons_cons]
    by_cases hlast : (q :: qs).getLast? = some []
    · rw [if_pos hlast, if_pos hlast]
      simp [List.dropLast]
    · rw [if_neg hlast, if_neg hlast]

/-- `String.mk` undoes `String.data`. -/
theorem stringMk_data (s : String) : String.mk s.data = s := rfl

theorem writeLines_data_cons (l : String) (t : List String) :
    (writeLines (l :: t)).data = l.data ++ '\n' :: (writeLines t).data := by
  simp [writeLines]

theorem splitSep_writeLines (ls : List String) (h : ∀ l ∈ ls, '\n' ∉ l.data) :
    dropLastEmpty (splitSep '\n' (writeLines ls).data) = ls.map String.data := by
  induction ls with
  | nil => rfl
  | cons l t ih =>
    rw [writeLines_data_cons, splitSep_append _ _ _ (h l (List.mem_cons_self l t)),
      dropLastEmpty_cons _ _ (splitSep_ne_nil _ _),
      ih fun x hx => h x (List.mem_cons_of_mem l hx)]
    rfl

theorem posixLines_writeLines (ls : List String) (h : ∀ l ∈ ls, '\n' ∉ l.data) :
    posixLines (writeLines ls) = ls := by
  unfold posixLines
  rw [splitSep_writeLines ls h, List.map_map]
  simp [Function.comp_def, stringMk_data]

theorem rustLines_writeLines (ls : List String)
    (h : ∀ l ∈ ls, '\n' ∉ l.data ∧ l.data.getLast? ≠ some '\r') :
    rustLines (writeLines ls) = ls := by
  unfold rustLines
  rw [splitSep_writeLines ls fun l hl => (h l hl).1, List.map_map]
  have : ∀ l ∈ ls, (fun p => String.mk (stripCr p)) (String.data l) = l := by
    intro l hl
    have : stripCr l.data = l.data := by
      unfold stripCr
      rw [if_neg (h l hl).2]
    simp [this, stringMk_data]
  calc (ls.map ((fun p => String.mk (stripCr p)) ∘ String.data))
      = ls.map id := List.map_congr_left fun l hl => this l hl
    _ = ls := List.map_id ls

/-! ## Lemmas: trimming -/

theorem dropWhile_head_false (p : Char → Bool) (l : List Char) (a : Char)
    (h : (l.dropWhile p).head? = some a) : p a = false := by
  induction l with
  | nil => simp [List.dropWhile] at h
  | cons x xs ih =>
    by_cases hx : p x
    · rw [List.dropWhile_cons_of_pos hx] at h
      exact ih h
    · rw [List.dropWhile_cons_of_neg hx] at h
      simp at h
      rw [← h]
      simpa using hx

theorem dropWhile_eq_self_of_head (p : Char → Bool) (l : List Char)
    (h : ∀ a, l.head? = some a → p a = false) : l.dropWhile p = l := by
  cases l with
  | nil => rfl
  | cons x xs => simp [List.dropWhile, h x rfl]

theorem getLast?_dropWhile (p : Char → Bool) (l : List Char)
    (h : l.dropWhile p ≠ []) : (l.dropWhile p).getLast? = l.getLast? := by
  induction l with
  | nil => simp [List.dropWhile] at h
  | cons x xs ih =>
    by_cases hx : p x
    · rw [List.dropWhile_cons_of_pos hx] at h ⊢
      rw [ih h]
      have hxs : xs ≠ [] := by
        intro h0
        rw [h0] at h
        simp [List.dropWhile] at h
      cases xs with
      | nil => exact absurd rfl hxs
      | cons y ys => rw [List.getLast?_cons_cons]
    · rw [List.dropWhile_cons_of_neg hx]

theorem mem_trimData (cs : List Char) (c : Char) (h : c ∈ trimData cs) : c ∈ cs := by
  unfold trimData at h
  rw [List.mem_reverse] at h
  have h2 := (List.dropWhile_sublist _).subset h
  rw [List.mem_reverse] at h2
  exact (List.dropWhile_sublist _).subset h2

theorem trimData_head (cs : List Char) (a : Char)
    (h : (trimData cs).head? = some a) : rustIsWhitespace a = false := by
  unfold trimData at h
  rw [List.head?_reverse] at h
  have hne : (cs.dropWhile rustIsWhitespace).reverse.dropWhile rustIsWhitespace ≠ [] := by
    intro h0
    rw [h0] at h
    simp at h
  rw [getLast?_dropWhile _ _ hne, List.getLast?_reverse] at h
  exact dropWhile_head_false _ _ _ h

theorem trimData_getLast (cs : List Char) (a : Char)
    (h : (trimData cs).getLast? = some a) : rustIsWhitespace a = false := by
  unfold trimData at h
  rw [List.getLast?_reverse] at h
  exact dropWhile_head_false _ _ _ h

theorem trimData_eq_self (l : List Char)
    (h1 : ∀ a, l.head? = some a → rustIsWhitespace a = false)
    (h2 : ∀ a, l.getLast? = some a → rustIsWhitespace a = false) :
    trimData l = l := by
  unfold trimData
  rw [dropWhile_eq_self_of_head _ _ h1]
  rw [dropWhile_eq_self_of_head _ _ fun a ha => h2 a (by rwa [List.head?_reverse] at ha)]
  exact List.reverse_reverse l

theorem trimData_idem (cs : List Char) : trimData (trimData cs) = trimData cs :=
  trimData_eq_self _ (trimData_head cs) (trimData_getLast cs)

theorem trimData_eq_nil (cs : List Char) (h : ∀ c ∈ cs, rustIsWhitespace c = true) :
    trimData cs = [] := by
  unfold trimData
  have hd : cs.dropWhile rustIsWhitespace = [] := by
    rw [List.dropWhile_eq_nil_iff]
    exact fun a ha => h a ha
  rw [hd]
  rfl

theorem rustTrim_idem (s : String) : rustTrim (rustTrim s) = rustTrim s := by
  unfold rustTrim
  rw [show (String.mk (trimData s.data)).data = trimData s.data from rfl, trimData_idem]

theorem rustTrim_no_lf (s : String) (h : '\n' ∉ s.data) : '\n' ∉ (rustTrim s).data := by
  intro hmem
  exact h (mem_trimData _ _ hmem)

theorem rustTrim_getLast_ne_cr (s : String) : (rustTrim s).data.getLast? ≠ some '\r' := by
  intro h
  have := trimData_getLast s.data '\r' h
  exact absurd this (by decide)

/-! ## Lemmas: the ingestion pipeline under a well-behaved sort utility -/

/-- A line as it occurs inside the running program: produced by
`BufRead::lines` (hence free of `'\n'`) and trimmed (hence not ending
in `'\r'`).  The write/sort/read-back roundtrip is lossless exactly on
such lines. -/
def lineClean (l : String) : Prop := '\n' ∉ l.data ∧ l.data.getLast? ≠ some '\r'

/-- All lines of the collection are clean. -/
def CleanLines (ls : List String) : Prop := ∀ l ∈ ls, lineClean l

instance (l : String) : Decidable (lineClean l) := by
  unfold lineClean
  infer_instance

instance (ls : List String) : Decidable (CleanLines ls) := by
  unfold CleanLines
  infer_instance

theorem cleanLines_of_perm (ls ls' : List String) (h : ls.Perm ls')
    (hc : CleanLines ls) : CleanLines ls' := fun l hl => hc l (h.mem_iff.mpr hl)

/-- The normalised body of a decoded file is clean whenever the decoded
non-header lines carry no `'\n'` (which `BufRead::lines` guarantees). -/
theorem cleanLines_processLines (ds : List String)
    (h : ∀ l ∈ ds.drop 1, '\n' ∉ l.data) :
    CleanLines (processLines ds) := by
  intro l hl
  simp only [processLines, List.mem_map] at hl
  obtain ⟨x, hx, rfl⟩ := hl
  exact ⟨rustTrim_no_lf x (h x hx), rustTrim_getLast_ne_cr x⟩

/-- On clean lines, the external sort strategy (under the utility's
specified behaviour) computes exactly the in-process sort. -/
theorem external_sort_spec (w : Bool) (ls : List String) (hc : CleanLines ls) :
    external_sort w specSortUtility ls = .ok (internal_sort ls) := by
  cases w with
  | true => rfl
  | false =>
    show (match specSortUtility (writeLines ls) with
      | none => (.error .sortError : Except FError (List String))
      | some out => .ok (rustLines out)) = .ok (internal_sort ls)
    unfold specSortUtility
    rw [posixLines_writeLines ls fun l hl => (hc l hl).1]
    have hclean' : CleanLines (List.insertionSort strLe ls) :=
      cleanLines_of_perm ls _ (List.perm_insertionSort strLe ls).symm hc
    show Except.ok (rustLines (writeLines (List.insertionSort strLe ls))) = _
    rw [rustLines_writeLines _ fun l hl => ⟨(hclean' l hl).1, (hclean' l hl).2⟩]
    rfl

theorem read_small_spec (w : Bool) (f : FsFile) (ds : List String)
    (hd : f.decoded = some ds) (hc : CleanLines (processLines ds)) :
    read_small w specSortUtility f = .ok (sortLines (processLines ds)) := by
  unfold read_small
  rw [hd]
  by_cases hl : (processLines ds).length > 100000
  · simp only [if_pos hl]
    exact external_sort_spec w _ hc
  · simp only [if_neg hl]

theorem external_sort_large_file_spec (w : Bool) (f : FsFile) (ds : List String)
    (hd : f.decoded = some ds) (hc : CleanLines (processLines ds)) :
    external_sort_large_file w specSortUtility f = .ok (sortLines (processLines ds)) := by
  unfold external_sort_large_file
  rw [hd]
  cases w with
  | true => rfl
  | false =>
    have h := external_sort_spec false (processLines ds) hc
    unfold external_sort at h
    simpa using h

/-- Routing: a file whose size query reports more than 100 MiB goes to
the large-file path. -/
theorem read_route_large (w : Bool) (sc : SortExec) (f : FsFile) (n : Nat)
    (hm : f.metadata = some n) (hn : n > MAX_MEMORY_FILE_SIZE) :
    read_and_process_file w sc f = external_sort_large_file w sc f := by
  unfold read_and_process_file
  have h : is_file_too_large f = .ok true := by
    unfold is_file_too_large
    rw [hm]
    show Except.ok (decide (n > MAX_MEMORY_FILE_SIZE)) = Except.ok true
    rw [decide_eq_true hn]
  rw [h]

/-- Routing: a file whose size query reports at most 100 MiB goes to
the small-file path. -/
theorem read_route_small (w : Bool) (sc : SortExec) (f : FsFile) (n : Nat)
    (hm : f.metadata = some n) (hn : ¬ n > MAX_MEMORY_FILE_SIZE) :
    read_and_process_file w sc f = read_small w sc f := by
  unfold read_and_process_file
  have h : is_file_too_large f = .ok false := by
    unfold is_file_too_large
    rw [hm]
    show Except.ok (decide (n > MAX_MEMORY_FILE_SIZE)) = Except.ok false
    rw [decide_eq_false hn]
  rw [h]

/-- Routing: a *failing* size query is silently discarded and the
small-file path is taken. -/
theorem read_route_meta_failure (w : Bool) (sc : SortExec) (f : FsFile)
    (hm : f.metadata = none) :
    read_and_process_file w sc f = read_small w sc f := by
  unfold read_and_process_file
  have h : is_file_too_large f = .error .ioError := by
    unfold is_file_too_large
    rw [hm]
  rw [h]

/-- Master lemma: under the specified external sort utility, reading
and processing a file whose decode succeeds yields the sorted,
header-skipped, trimmed body — on every route through the function. -/
theorem read_and_process_file_spec (w : Bool) (f : FsFile) (ds : List String)
    (hd : f.decoded = some ds) (hc : CleanLines (processLines ds)) :
    read_and_process_file w specSortUtility f = .ok (sortLines (processLines ds)) := by
  cases hm : f.metadata with
  | none =>
    rw [read_route_meta_failure w _ f hm]
    exact read_small_spec w f ds hd hc
  | some n =>
    by_cases hn : n > MAX_MEMORY_FILE_SIZE
    · rw [read_route_large w _ f n hm hn]
      exact external_sort_large_file_spec w f ds hd hc
    · rw [read_route_small w _ f n hm hn]
      exact read_small_spec w f ds hd hc

/-! ## Lemmas: the pair matcher -/

theorem step_eq (k : String) (acc : Option FileEnt) (e : FileEnt) :
    (match entKey e with
      | some k2 => if k2 = k then some e else acc
      | none => acc) =
      (([e].find? fun x => entKey x == some k).or acc) := by
  by_cases h : entKey e = some k
  · have hfind : ([e].find? fun x => entKey x == some k) = some e := by
      simp [List.find?, h]
    rw [h, hfind]
    show (if k = k then some e else acc) = (some e).or acc
    rw [if_pos rfl]
    rfl
  · have hfind : ([e].find? fun x => entKey x == some k) = none := by
      simp [List.find?, beq_eq_false_iff_ne.mpr h]
    rw [hfind]
    cases hk : entKey e with
    | none => rfl
    | some k2 =>
      have hne : ¬ k2 = k := fun he => h (by rw [hk, he])
      show (if k2 = k then some e else acc) = none.or acc
      rw [if_neg hne]
      rfl

theorem foldl_lookup_aux (k : String) (fs : List FileEnt) (acc : Option FileEnt) :
    fs.foldl
      (fun acc e =>
        match entKey e with
        | some k2 => if k2 = k then some e else acc
        | none => acc)
      acc = (fs.reverse.find? fun e => entKey e == some k).or acc := by
  induction fs generalizing acc with
  | nil => rfl
  | cons e fs ih =>
    rw [List.foldl_cons, ih, step_eq, ← Option.or_assoc, ← List.find?_append,
      ← List.reverse_cons]

/-- The `HashMap` lookup returns the last matching entry of the dir2
listing (last-write-wins). -/
theorem dir2MapLookup_eq_lastWithKey (files2 : List FileEnt) (k : String) :
    dir2MapLookup files2 k = lastWithKey files2 k := by
  unfold dir2MapLookup lastWithKey
  rw [foldl_lookup_aux k files2 none]
  cases (files2.reverse.find? fun e => entKey e == some k) <;> rfl

theorem lastWithKey_entKey (fs : List FileEnt) (k : String) (e : FileEnt)
    (h : lastWithKey fs k = some e) : entKey e = some k := by
  have := List.find?_some h
  simpa using this

theorem lastWithKey_mem (fs : List FileEnt) (k : String) (e : FileEnt)
    (h : lastWithKey fs k = some e) : e ∈ fs := by
  have := List.mem_of_find?_eq_some h
  rwa [List.mem_reverse] at this

/-- Membership characterisation of the emitted pairs. -/
theorem mem_generate_file_pairs (fs1 fs2 : List FileEnt) (e1 e2 : FileEnt) :
    (e1, e2) ∈ generate_file_pairs fs1 fs2 ↔
      e1 ∈ fs1 ∧ ∃ k, entKey e1 = some k ∧ dir2MapLookup fs2 k = some e2 := by
  unfold generate_file_pairs
  rw [List.mem_filterMap]
  constructor
  · rintro ⟨a, ha, hfa⟩
    cases hk : entKey a with
    | none => rw [hk] at hfa; exact absurd hfa (by simp)
    | some k =>
      rw [hk] at hfa
      have hfa' : (dir2MapLookup fs2 k).map (fun e2 => (a, e2)) = some (e1, e2) := hfa
      obtain ⟨x, hx, hpair⟩ := Option.map_eq_some'.mp hfa'
      obtain ⟨rfl, rfl⟩ := Prod.mk.inj hpair
      exact ⟨ha, k, hk, hx⟩
  · rintro ⟨h1, k, hk, hx⟩
    refine ⟨e1, h1, ?_⟩
    rw [hk]
    show (dir2MapLookup fs2 k).map (fun e2 => (e1, e2)) = some (e1, e2)
    rw [hx]
    rfl

/-- A split segment joined back with the separator is injective:
segment lists free of the separator are recovered uniquely. -/
theorem append_sep_inj (sep : Char) (u v a b : List Char)
    (hu : sep ∉ u) (hv : sep ∉ v) (h : u ++ sep :: a = v ++ sep :: b) :
    u = v ∧ a = b := by
  induction u generalizing v with
  | nil =>
    cases v with
    | nil => simpa using h
    | cons y ys =>
      simp only [List.nil_append, List.cons_append, List.cons.injEq] at h
      exact absurd (h.1 ▸ List.mem_cons_self y ys) hv
  | cons x xs ih =>
    cases v with
    | nil =>
      simp only [List.nil_append, List.cons_append, List.cons.injEq] at h
      exact absurd (h.1.symm ▸ List.mem_cons_self x xs) hu
    | cons y ys =>
      simp only [List.cons_append, List.cons.injEq] at h
      obtain ⟨rfl, h2⟩ := h
      have := ih ys (fun hs => hu (List.mem_cons_of_mem x hs))
        (fun hs => hv (List.mem_cons_of_mem x hs)) h2
      exact ⟨by rw [this.1], this.2⟩

theorem getD_mem (l : List (List Char)) (i : Nat) (h : i < l.length) :
    l.getD i [] ∈ l := by
  rw [List.getD_eq_getElem l [] h]
  exact List.getElem_mem h

/-- The joined string key and the segment triple determine each other:
two matching stems have equal keys iff they have equal triples. -/
theorem stemKey_eq_iff_tripleEq (s1 s2 k1 k2 : String)
    (t1 t2 : List Char × List Char × List Char)
    (h1 : stemKey s1 = some k1) (h2 : stemKey s2 = some k2)
    (g1 : stemTriple s1 = some t1) (g2 : stemTriple s2 = some t2) :
    k1 = k2 ↔ t1 = t2 := by
  unfold stemKey at h1 h2
  unfold stemTriple at g1 g2
  by_cases c1 : 6 ≤ (splitSep '_' s1.data).length ∧
      (splitSep '_' s1.data).getD 0 [] = ['S', 'C'] ∧
      (splitSep '_' s1.data).getD ((splitSep '_' s1.data).length - 1) [] = ['Z']
  swap
  · rw [if_neg c1] at h1; exact absurd h1 (by simp)
  by_cases c2 : 6 ≤ (splitSep '_' s2.data).length ∧
      (splitSep '_' s2.data).getD 0 [] = ['S', 'C'] ∧
      (splitSep '_' s2.data).getD ((splitSep '_' s2.data).length - 1) [] = ['Z']
  swap
  · rw [if_neg c2] at h2; exact absurd h2 (by simp)
  rw [if_pos c1] at h1 g1
  rw [if_pos c2] at h2 g2
  have hk1 := Option.some.inj h1
  have hk2 := Option.some.inj h2
  have hg1 := Option.some.inj g1
  have hg2 := Option.some.inj g2
  subst hk1 hk2 hg1 hg2
  have free1 : ∀ i < (splitSep '_' s1.data).length,
      '_' ∉ (splitSep '_' s1.data).getD i [] := fun i hi =>
    splitSep_no_sep '_' s1.data _ (getD_mem _ i hi)
  have free2 : ∀ i < (splitSep '_' s2.data).length,
      '_' ∉ (splitSep '_' s2.data).getD i [] := fun i hi =>
    splitSep_no_sep '_' s2.data _ (getD_mem _ i hi)
  constructor
  · intro hk
    have hdata : (splitSep '_' s1.data).getD 1 [] ++ '_' ::
        ((splitSep '_' s1.data).getD 2 [] ++ '_' ::
          (splitSep '_' s1.data).getD ((splitSep '_' s1.data).length - 2) []) =
        (splitSep '_' s2.data).getD 1 [] ++ '_' ::
        ((splitSep '_' s2.data).getD 2 [] ++ '_' ::
          (splitSep '_' s2.data).getD ((splitSep '_' s2.data).length - 2) []) :=
      congrArg String.data hk
    have step1 := append_sep_inj '_' _ _ _ _
      (free1 1 (by omega)) (free2 1 (by omega)) hdata
    have step2 := append_sep_inj '_' _ _ _ _
      (free1 2 (by omega)) (free2 2 (by omega)) step1.2
    rw [step1.1, step2.1, step2.2]
  · intro ht
    have ea := congrArg (fun t : List Char × List Char × List Char => t.1) ht
    have eb := congrArg (fun t : List Char × List Char × List Char => t.2.1) ht
    have ec := congrArg (fun t : List Char × List Char × List Char => t.2.2) ht
    simp only at ea eb ec
    rw [ea, eb, ec]

/-- The first components of the emitted pairs form a sublist of the
dir1 listing. -/
theorem map_fst_pairs_sublist (fs1 fs2 : List FileEnt) :
    ((generate_file_pairs fs1 fs2).map Prod.fst).Sublist fs1 := by
  induction fs1 with
  | nil => simp [generate_file_pairs]
  | cons e t ih =>
    unfold generate_file_pairs at ih ⊢
    rw [List.filterMap_cons]
    cases hk : entKey e with
    | none => exact ih.cons e
    | some k =>
      cases hx : dir2MapLookup fs2 k with
      | none =>
        simp only [hx, Option.map_none']
        exact ih.cons e
      | some x =>
        simp only [hx, Option.map_some', List.map_cons]
        exact ih.cons₂ e

/-! ## Concrete fixtures used by witnesses and counterexamples -/

/-- A present, readable small test file. -/
def fOne : FsFile := ⟨"one.txt", true, some 0, some ["h", "x"]⟩

/-- A second present, readable small test file with the same body. -/
def fTwo : FsFile := ⟨"two.txt", true, some 0, some ["h", "x"]⟩

/-- A missing file. -/
def fGone : FsFile := ⟨"gone.txt", false, none, none⟩

/-- A readable file whose metadata query fails. -/
def fMetaFail : FsFile := ⟨"meta.txt", true, none, some ["h", "b", "a"]⟩

/-- A readable file above the 100 MiB threshold. -/
def fBig : FsFile := ⟨"big.txt", true, some (MAX_MEMORY_FILE_SIZE + 1), some ["h", "b", "a"]⟩

/-- A dir1 entry matching the filename pattern. -/
def entA : FileEnt :=
  ⟨"d1/SC_13260000_20190820_019N_A05_Z.txt", some "SC_13260000_20190820_019N_A05_Z"⟩

/-- A dir2 entry with the same key as `entA` (version differs). -/
def entB1 : FileEnt :=
  ⟨"d2/SC_13260000_20190820_777X_A05_Z.txt", some "SC_13260000_20190820_777X_A05_Z"⟩

/-- Another dir2 entry with that same key, listed after `entB1`. -/
def entB2 : FileEnt :=
  ⟨"d2/SC_13260000_20190820_999X_A05_Z.txt", some "SC_13260000_20190820_999X_A05_Z"⟩

/-- The shared key of `entA`, `entB1` and `entB2`. -/
def keyA : String := "13260000_20190820_A05"

/-- The `FilePairKey` triple of `entA` (and of `entB1`, `entB2`). -/
def tripA : List Char × List Char × List Char :=
  ("13260000".data, "20190820".data, "A05".data)

/-- Two dir1 entries sharing one key. -/
def entC1 : FileEnt := ⟨"d1/SC_9_9_001N_B01_Z.txt", some "SC_9_9_001N_B01_Z"⟩

/-- Second dir1 entry with the same key as `entC1`. -/
def entC2 : FileEnt := ⟨"d1/SC_9_9_002N_B01_Z.txt", some "SC_9_9_002N_B01_Z"⟩

/-- The single dir2 entry matching both `entC1` and `entC2`. -/
def entD : FileEnt := ⟨"d2/SC_9_9_003N_B01_Z.txt", some "SC_9_9_003N_B01_Z"⟩

/-! ## Claims -/

/-- C2: on the slow path, `onlyInFirst` and `onlyInSecond` are disjoint
from each other and from the intersection of the two line sets,
`onlyInFirst ∪ (LineSet1 ∩ LineSet2)` recovers LineSet1, and the result
is `none` exactly when both difference sets are empty. -/
theorem c2_slow_path_set_algebra (l1 l2 : List String) :
    (∀ d, compare_lines l1 l2 = some d →
      Disjoint d.only_in_first d.only_in_second ∧
      Disjoint d.only_in_first (l1.toFinset ∩ l2.toFinset) ∧
      Disjoint d.only_in_second (l1.toFinset ∩ l2.toFinset) ∧
      d.only_in_first ∪ l1.toFinset ∩ l2.toFinset = l1.toFinset) ∧
    (compare_lines l1 l2 = none ↔
      l1.toFinset \ l2.toFinset = ∅ ∧ l2.toFinset \ l1.toFinset = ∅) := by
  constructor
  · intro d hd
    unfold compare_lines at hd
    by_cases hc : l1.toFinset \ l2.toFinset = ∅ ∧ l2.toFinset \ l1.toFinset = ∅
    · rw [if_pos hc] at hd
      exact absurd hd (by simp)
    · rw [if_neg hc] at hd
      have hdval := (Option.some.inj hd).symm
      subst hdval
      refine ⟨disjoint_sdiff_sdiff, ?_, ?_, Finset.sdiff_union_inter _ _⟩
      · exact Finset.sdiff_disjoint.mono_right inf_le_right
      · exact Finset.sdiff_disjoint.mono_right inf_le_left
  · unfold compare_lines
    by_cases hc : l1.toFinset \ l2.toFinset = ∅ ∧ l2.toFinset \ l1.toFinset = ∅
    · rw [if_pos hc]
      exact iff_of_true rfl hc
    · rw [if_neg hc]
      exact iff_of_false (by simp) hc

/-- Witness for C2 at a concrete input: lists `["a", "b"]` and
`["b", "c"]` produce the differences `{"a"}` and `{"c"}` satisfying the
set algebra, and equal lists produce `none`. -/
theorem c2_witness :
    (Disjoint (FileDifferences.mk {"a"} {"c"}).only_in_first
        (FileDifferences.mk {"a"} {"c"}).only_in_second ∧
      Disjoint (FileDifferences.mk {"a"} {"c"}).only_in_first
        (["a", "b"].toFinset ∩ ["b", "c"].toFinset) ∧
      Disjoint (FileDifferences.mk {"a"} {"c"}).only_in_second
        (["a", "b"].toFinset ∩ ["b", "c"].toFinset) ∧
      (FileDifferences.mk {"a"} {"c"}).only_in_first ∪
        ["a", "b"].toFinset ∩ ["b", "c"].toFinset = ["a", "b"].toFinset) ∧
    (compare_lines ["a"] ["a"] = none ↔
      ["a"].toFinset \ ["a"].toFinset = ∅ ∧ ["a"].toFinset \ ["a"].toFinset = ∅) :=
  ⟨(c2_slow_path_set_algebra ["a", "b"] ["b", "c"]).1 ⟨{"a"}, {"c"}⟩ (by decide),
   (c2_slow_path_set_algebra ["a"] ["a"]).2⟩

/-- C8: `compare_files` fails with `NotFoundError` naming the missing
path whenever either input is absent — independently of the compare
utility's outcome and of any file content, i.e. before any utility runs
or content is read. -/
theorem c8_not_found (w : Bool) (sc : SortExec) (dout : CmdOutcome) (f1 f2 : FsFile) :
    (f1.present = false →
      compare_files w sc dout f1 f2 = .error (.notFound f1.path)) ∧
    (f1.present = true → f2.present = false →
      compare_files w sc dout f1 f2 = .error (.notFound f2.path)) := by
  constructor
  · intro h1
    unfold compare_files
    rw [if_pos h1]
  · intro h1 h2
    unfold compare_files
    rw [if_neg (by simp [h1]), if_pos h2]

/-- Witness for C8: a missing first or second path yields the
`NotFoundError` naming it, even when the compare utility would fail to
launch. -/
theorem c8_witness :
    compare_files false specSortUtility CmdOutcome.launchFailure fGone fOne =
      .error (.notFound "gone.txt") ∧
    compare_files false specSortUtility CmdOutcome.launchFailure fOne fGone =
      .error (.notFound "gone.txt") :=
  ⟨(c8_not_found false specSortUtility CmdOutcome.launchFailure fGone fOne).1 rfl,
   (c8_not_found false specSortUtility CmdOutcome.launchFailure fOne fGone).2 rfl rfl⟩

/-- C3 counterexample: when the compare utility fails to *launch*
(`Command::output()` returns `Err`), the `?` operator propagates the
failure: `compare_files` returns an error instead of falling back to
the slow path, refuting "never surfaced to the caller". -/
theorem c3_counterexample :
    compare_files false specSortUtility CmdOutcome.launchFailure fOne fTwo =
      .error .processError ∧
    compare_files false specSortUtility CmdOutcome.launchFailure fOne fTwo ≠
      slow_compare false specSortUtility fOne fTwo := by
  constructor
  · rfl
  · decide

/-- C3 amended: failures of the compare utility *after a successful
launch* (nonzero exit status, with or without error output) are
swallowed and fall through to the slow path; a failure to launch the
utility is propagated as a `ProcessError`. -/
theorem c3_fast_path_errors (w : Bool) (sc : SortExec) (f1 f2 : FsFile) (se : Bool)
    (h1 : f1.present = true) (h2 : f2.present = true) :
    compare_files w sc (.ran false se) f1 f2 = slow_compare w sc f1 f2 ∧
    compare_files w sc .launchFailure f1 f2 = .error .processError := by
  constructor <;>
  · unfold compare_files
    rw [if_neg (by simp [h1]), if_neg (by simp [h2])]

/-- Witness for the amended C3 at concrete files. -/
theorem c3_witness :
    compare_files false specSortUtility (CmdOutcome.ran false true) fOne fTwo =
      slow_compare false specSortUtility fOne fTwo ∧
    compare_files false specSortUtility CmdOutcome.launchFailure fOne fTwo =
      .error .processError :=
  c3_fast_path_errors false specSortUtility fOne fTwo true rfl rfl

/-- C5 counterexample: when the metadata query fails, the `if let
Ok(...)` pattern silently discards the error and the small-file path
runs — the function does *not* fail with `IoError` on a failed
metadata query (here it succeeds and returns the processed body). -/
theorem c5_counterexample :
    read_and_process_file false specSortUtility fMetaFail = .ok ["a", "b"] ∧
    read_and_process_file false specSortUtility fMetaFail ≠ .error .ioError := by
  constructor
  · decide
  · decide

/-- C5 amended: a failing metadata query is silently ignored and the
small-file path is attempted (where an unreadable file would then fail
with `IoError` at open time); when the metadata query succeeds with a
size above 100 MiB, the function routes directly to the large-file
path. -/
theorem c5_size_routing (w : Bool) (sc : SortExec) (p : String) (pr : Bool)
    (d : Option (List String)) (m : Nat) (hm : m > MAX_MEMORY_FILE_SIZE) :
    read_and_process_file w sc ⟨p, pr, none, d⟩ = read_small w sc ⟨p, pr, none, d⟩ ∧
    read_and_process_file w sc ⟨p, pr, some m, d⟩ =
      external_sort_large_file w sc ⟨p, pr, some m, d⟩ :=
  ⟨read_route_meta_failure w sc _ rfl, read_route_large w sc _ m rfl hm⟩

/-- Witness for the amended C5 at a concrete size just above the
threshold. -/
theorem c5_witness :
    read_and_process_file false specSortUtility ⟨"p", true, none, some ["h"]⟩ =
      read_small false specSortUtility ⟨"p", true, none, some ["h"]⟩ ∧
    read_and_process_file false specSortUtility
        ⟨"p", true, some (MAX_MEMORY_FILE_SIZE + 1), some ["h"]⟩ =
      external_sort_large_file false specSortUtility
        ⟨"p", true, some (MAX_MEMORY_FILE_SIZE + 1), some ["h"]⟩ :=
  c5_size_routing false specSortUtility "p" true (some ["h"])
    (MAX_MEMORY_FILE_SIZE + 1) (Nat.lt_succ_self _)

/-- C4 counterexample: on the large-file path on Unix the external sort
utility is invoked even for a 2-line body (far below the 100000-line
threshold), so a failing utility makes the large path fail with
`SortError` while the small path's size-based choice sorts the same
body in-process and succeeds — the two paths do *not* apply the same
sort choice. -/
theorem c4_counterexample :
    external_sort_large_file false badSortUtility fBig = .error .sortError ∧
    ¬ (processLines ["h", "b", "a"]).length > 100000 ∧
    read_small false badSortUtility fBig = .ok ["a", "b"] := by
  refine ⟨rfl, by decide, by decide⟩

/-- C4 amended: on the large-file path, Windows always sorts
in-process; Unix always invokes the external sort utility regardless
of the accumulated line count — no 100000-line threshold is applied —
propagating the utility's failure as `SortError` and returning its
read-back output on success. -/
theorem c4_large_file_sort_choice (sc : SortExec) (p : String) (pr : Bool)
    (m : Option Nat) (ds : List String) :
    external_sort_large_file true sc ⟨p, pr, m, some ds⟩ =
      .ok (internal_sort (processLines ds)) ∧
    (sc (writeLines (processLines ds)) = none →
      external_sort_large_file false sc ⟨p, pr, m, some ds⟩ = .error .sortError) ∧
    (∀ out, sc (writeLines (processLines ds)) = some out →
      external_sort_large_file false sc ⟨p, pr, m, some ds⟩ = .ok (rustLines out)) := by
  refine ⟨rfl, ?_, ?_⟩
  · intro h
    show (match sc (writeLines (processLines ds)) with
      | none => (.error .sortError : Except FError (List String))
      | some out => .ok (rustLines out)) = .error .sortError
    rw [h]
  · intro out h
    show (match sc (writeLines (processLines ds)) with
      | none => (.error .sortError : Except FError (List String))
      | some out => .ok (rustLines out)) = .ok (rustLines out)
    rw [h]

/-- Witness for the amended C4: a 2-line body, Windows in-process
versus Unix consulting the (here failing) utility. -/
theorem c4_witness :
    external_sort_large_file true badSortUtility fBig =
      .ok (internal_sort (processLines ["h", "b", "a"])) ∧
    external_sort_large_file false badSortUtility fBig = .error .sortError :=
  ⟨(c4_large_file_sort_choice badSortUtility "big.txt" true
      (some (MAX_MEMORY_FILE_SIZE + 1)) ["h", "b", "a"]).1,
   (c4_large_file_sort_choice badSortUtility "big.txt" true
      (some (MAX_MEMORY_FILE_SIZE + 1)) ["h", "b", "a"]).2.1 rfl⟩

/-- C6: the in-process sort returns a permutation of its input, sorted
lexicographically over the raw character representation, and — on the
lines the program actually sorts (no `'\n'`, no trailing `'\r'`) — the
external strategy (temp file, external sort utility behaving as
specified, read-back) produces exactly the same sorted sequence. -/
theorem c6_sort_contract (ls : List String) (hc : CleanLines ls) :
    (internal_sort ls).Perm ls ∧
    List.Sorted strLe (internal_sort ls) ∧
    external_sort false specSortUtility ls = .ok (internal_sort ls) :=
  ⟨sortLines_perm ls, sortLines_sorted ls, external_sort_spec false ls hc⟩

/-- Witness for C6 at a concrete line collection. -/
theorem c6_witness :
    (internal_sort ["b", "a", "c"]).Perm ["b", "a", "c"] ∧
    List.Sorted strLe (internal_sort ["b", "a", "c"]) ∧
    external_sort false specSortUtility ["b", "a", "c"] =
      .ok (internal_sort ["b", "a", "c"]) :=
  c6_sort_contract ["b", "a", "c"] (by decide)

/-- C7: the decoded line at index 0 is dropped regardless of its
content (replacing the header changes nothing), a file with at most
one line yields an empty body, and every line of the result is a
trimmed line of the tail (the result permutes the trimmed tail and is
fixed by re-trimming). -/
theorem c7_header_skip_trim (w : Bool) (p : String) (pr : Bool) (m : Option Nat)
    (hd1 hd2 : String) (rest : List String)
    (hrest : ∀ l ∈ rest, '\n' ∉ l.data) :
    read_and_process_file w specSortUtility ⟨p, pr, m, some (hd1 :: rest)⟩ =
      read_and_process_file w specSortUtility ⟨p, pr, m, some (hd2 :: rest)⟩ ∧
    read_and_process_file w specSortUtility ⟨p, pr, m, some []⟩ = .ok [] ∧
    read_and_process_file w specSortUtility ⟨p, pr, m, some [hd1]⟩ = .ok [] ∧
    (∃ out,
      read_and_process_file w specSortUtility ⟨p, pr, m, some (hd1 :: rest)⟩ =
        .ok out ∧
      out.Perm (rest.map rustTrim) ∧ (∀ l ∈ out, rustTrim l = l)) := by
  have hcl : CleanLines (processLines (hd1 :: rest)) :=
    cleanLines_processLines (hd1 :: rest) hrest
  have hcl2 : CleanLines (processLines (hd2 :: rest)) :=
    cleanLines_processLines (hd2 :: rest) hrest
  have hclnil : CleanLines (processLines ([] : List String)) := by
    intro l hl
    simp [processLines] at hl
  have hclone : CleanLines (processLines [hd1]) := by
    intro l hl
    simp [processLines] at hl
  refine ⟨?_, ?_, ?_, ?_⟩
  · rw [read_and_process_file_spec w _ (hd1 :: rest) rfl hcl,
      read_and_process_file_spec w _ (hd2 :: rest) rfl hcl2]
    rfl
  · rw [read_and_process_file_spec w _ [] rfl hclnil]
    rfl
  · rw [read_and_process_file_spec w _ [hd1] rfl hclone]
    rfl
  · refine ⟨sortLines (processLines (hd1 :: rest)),
      read_and_process_file_spec w _ (hd1 :: rest) rfl hcl, sortLines_perm _, ?_⟩
    intro l hl
    have hl' : l ∈ rest.map rustTrim := (sortLines_perm _).subset hl
    obtain ⟨x, -, rfl⟩ := List.mem_map.mp hl'
    exact rustTrim_idem x

/-- Witness for C7: two different headers over the same tail. -/
theorem c7_witness :
    read_and_process_file false specSortUtility
        ⟨"p", true, some 0, some ("HEADER" :: [" x ", "y"])⟩ =
      read_and_process_file false specSortUtility
        ⟨"p", true, some 0, some ("other" :: [" x ", "y"])⟩ ∧
    read_and_process_file false specSortUtility ⟨"p", true, some 0, some []⟩ =
      .ok [] ∧
    read_and_process_file false specSortUtility ⟨"p", true, some 0, some ["HEADER"]⟩ =
      .ok [] ∧
    (∃ out,
      read_and_process_file false specSortUtility
          ⟨"p", true, some 0, some ("HEADER" :: [" x ", "y"])⟩ = .ok out ∧
      out.Perm ([" x ", "y"].map rustTrim) ∧ (∀ l ∈ out, rustTrim l = l)) :=
  c7_header_skip_trim false "p" true (some 0) "HEADER" "other" [" x ", "y"]
    (by decide)

/-- C9: whitespace-only lines normalise to the empty string, remain
members of the line set (any number of them collapsing to the single
member `""`), and two files whose bodies differ only in that exactly
the first contains blank / whitespace-only non-header lines are
reported different by the slow path, with `""` in `onlyInFirst`. -/
theorem c9_blank_lines :
    (∀ l : String, (∀ c ∈ l.data, rustIsWhitespace c = true) → rustTrim l = "") ∧
    (∀ ds : List String, ∀ l ∈ ds.drop 1,
      (∀ c ∈ l.data, rustIsWhitespace c = true) →
      "" ∈ (processLines ds).toFinset) ∧
    (∀ (w : Bool) (f1 f2 : FsFile) (ds1 ds2 : List String),
      f1.decoded = some ds1 → f2.decoded = some ds2 →
      (∀ l ∈ ds1.drop 1, '\n' ∉ l.data) → (∀ l ∈ ds2.drop 1, '\n' ∉ l.data) →
      (processLines ds1).toFinset = insert "" (processLines ds2).toFinset →
      "" ∉ (processLines ds2).toFinset →
      ∃ d, slow_compare w specSortUtility f1 f2 = .ok (some d) ∧
        "" ∈ d.only_in_first ∧ d.only_in_second = ∅) := by
  have part1 : ∀ l : String,
      (∀ c ∈ l.data, rustIsWhitespace c = true) → rustTrim l = "" := by
    intro l hws
    show String.mk (trimData l.data) = ""
    rw [trimData_eq_nil l.data hws]
  refine ⟨part1, ?_, ?_⟩
  · intro ds l hl hws
    rw [List.mem_toFinset]
    have : rustTrim l ∈ processLines ds := List.mem_map_of_mem rustTrim hl
    rwa [part1 l hws] at this
  · intro w f1 f2 ds1 ds2 hdec1 hdec2 hn1 hn2 hset hnotin
    have hc1 := cleanLines_processLines ds1 hn1
    have hc2 := cleanLines_processLines ds2 hn2
    have e1 : (sortLines (processLines ds1)).toFinset = (processLines ds1).toFinset :=
      toFinset_of_perm _ _ (sortLines_perm _)
    have e2 : (sortLines (processLines ds2)).toFinset = (processLines ds2).toFinset :=
      toFinset_of_perm _ _ (sortLines_perm _)
    have ho1 : (processLines ds1).toFinset \ (processLines ds2).toFinset = {""} := by
      rw [hset]
      ext a
      simp only [Finset.mem_sdiff, Finset.mem_insert, Finset.mem_singleton]
      constructor
      · rintro ⟨ha | ha, hna⟩
        · exact ha
        · exact absurd ha hna
      · rintro rfl
        exact ⟨Or.inl rfl, hnotin⟩
    have ho2 : (processLines ds2).toFinset \ (processLines ds1).toFinset = ∅ := by
      rw [hset]
      exact Finset.sdiff_eq_empty_iff_subset.mpr (Finset.subset_insert _ _)
    have hcmp : compare_lines (sortLines (processLines ds1))
        (sortLines (processLines ds2)) = some ⟨{""}, ∅⟩ := by
      show (if (sortLines (processLines ds1)).toFinset \
              (sortLines (processLines ds2)).toFinset = ∅ ∧
            (sortLines (processLines ds2)).toFinset \
              (sortLines (processLines ds1)).toFinset = ∅ then none
        else some
          (FileDifferences.mk
            ((sortLines (processLines ds1)).toFinset \
              (sortLines (processLines ds2)).toFinset)
            ((sortLines (processLines ds2)).toFinset \
              (sortLines (processLines ds1)).toFinset))) =
        some (FileDifferences.mk {""} ∅)
      rw [e1, e2, ho1, ho2, if_neg (by simp)]
    refine ⟨⟨{""}, ∅⟩, ?_, Finset.mem_singleton_self "", rfl⟩
    unfold slow_compare
    rw [read_and_process_file_spec w f1 ds1 hdec1 hc1,
      read_and_process_file_spec w f2 ds2 hdec2 hc2]
    show Except.ok (compare_lines (sortLines (processLines ds1))
      (sortLines (processLines ds2))) = _
    rw [hcmp]

/-- Witness for C9: a whitespace-only line trims to `""`, it is a set
member, and the file `["h", "a", " "]` differs from `["h", "a"]` with
`""` in `onlyInFirst`. -/
theorem c9_witness :
    rustTrim " \t " = "" ∧
    "" ∈ (processLines ["h", "a", " "]).toFinset ∧
    (∃ d, slow_compare false specSortUtility
        ⟨"nine-a.txt", true, some 0, some ["h", "a", " "]⟩
        ⟨"nine-b.txt", true, some 0, some ["h", "a"]⟩ = .ok (some d) ∧
      "" ∈ d.only_in_first ∧ d.only_in_second = ∅) :=
  ⟨c9_blank_lines.1 " \t " (by decide),
   c9_blank_lines.2.1 ["h", "a", " "] " " (by decide) (by decide),
   c9_blank_lines.2.2 false
     ⟨"nine-a.txt", true, some 0, some ["h", "a", " "]⟩
     ⟨"nine-b.txt", true, some 0, some ["h", "a"]⟩
     ["h", "a", " "] ["h", "a"] rfl rfl (by decide) (by decide)
     (by decide) (by decide)⟩

/-- C1 counterexample: `entA` (dir1) and `entB1` (dir2) both match the
pattern and have *equal* keys, yet the pair `(entA, entB1)` is not
emitted because another dir2 file with the same key (`entB2`) was
inserted later and overwrote the lookup entry — refuting the
"if and only if" as stated. -/
theorem c1_counterexample :
    entKey entA = entKey entB1 ∧
    (entKey entA).isSome = true ∧
    entA ∈ [entA] ∧ entB1 ∈ [entB1, entB2] ∧
    (entA, entB1) ∉ generate_file_pairs [entA] [entB1, entB2] ∧
    generate_file_pairs [entA] [entB1, entB2] = [(entA, entB2)] := by
  decide

/-- C1 amended: for pattern-matching entries, the emitted pairs are
exactly those whose keys — equivalently, whose `FilePairKey` triples —
are equal *and* whose dir2 entry is the last entry of the dir2 listing
carrying that key (last-write-wins on duplicate dir2 keys). -/
theorem c1_pair_iff_key_eq (files1 files2 : List FileEnt) (e1 e2 : FileEnt)
    (k1 k2 : String) (t1 t2 : List Char × List Char × List Char)
    (h1 : e1 ∈ files1) (hk1 : entKey e1 = some k1) (hk2 : entKey e2 = some k2)
    (ht1 : entTriple e1 = some t1) (ht2 : entTriple e2 = some t2) :
    (k1 = k2 ↔ t1 = t2) ∧
    ((e1, e2) ∈ generate_file_pairs files1 files2 ↔
      k1 = k2 ∧ lastWithKey files2 k1 = some e2) := by
  have hiff : k1 = k2 ↔ t1 = t2 := by
    cases hs1 : e1.stem with
    | none => rw [entKey, hs1] at hk1; exact absurd hk1 (by simp)
    | some s1 =>
      cases hs2 : e2.stem with
      | none => rw [entKey, hs2] at hk2; exact absurd hk2 (by simp)
      | some s2 =>
        rw [entKey, hs1] at hk1
        rw [entKey, hs2] at hk2
        rw [entTriple, hs1] at ht1
        rw [entTriple, hs2] at ht2
        exact stemKey_eq_iff_tripleEq s1 s2 k1 k2 t1 t2 hk1 hk2 ht1 ht2
  refine ⟨hiff, ?_⟩
  rw [mem_generate_file_pairs]
  constructor
  · rintro ⟨-, k, hk, hx⟩
    have hkk : k = k1 := by
      rw [hk1] at hk
      exact (Option.some.inj hk).symm
    subst hkk
    rw [dir2MapLookup_eq_lastWithKey] at hx
    have hke2 := lastWithKey_entKey files2 k e2 hx
    rw [hk2] at hke2
    exact ⟨(Option.some.inj hke2).symm, hx⟩
  · rintro ⟨hkk, hlast⟩
    refine ⟨h1, k1, hk1, ?_⟩
    rw [dir2MapLookup_eq_lastWithKey]
    exact hlast

/-- Witness for the amended C1: with a unique key in dir2, the pair is
emitted and the characterisation holds. -/
theorem c1_witness :
    (keyA = keyA ↔ tripA = tripA) ∧
    ((entA, entB2) ∈ generate_file_pairs [entA] [entB2] ↔
      keyA = keyA ∧ lastWithKey [entB2] keyA = some entB2) :=
  c1_pair_iff_key_eq [entA] [entB2] entA entB2 keyA keyA tripA tripA
    (by decide) (by decide) (by decide) (by decide) (by decide)

/-- C10: each dir1 file heads at most one pair (the emitted first
components are a duplicate-free sublist of a duplicate-free dir1
listing), a single dir2 file may be the second component of several
pairs (concrete two-to-one instance), and duplicate dir2 keys are
resolved silently by keeping the last-inserted entry. -/
theorem c10_pair_multiplicity (files1 files2 : List FileEnt)
    (h : files1.Nodup) :
    ((generate_file_pairs files1 files2).map Prod.fst).Nodup ∧
    generate_file_pairs [entC1, entC2] [entD] = [(entC1, entD), (entC2, entD)] ∧
    (∀ k, dir2MapLookup files2 k = lastWithKey files2 k) :=
  ⟨h.sublist (map_fst_pairs_sublist files1 files2), by decide,
   fun k => dir2MapLookup_eq_lastWithKey files2 k⟩

/-- Witness for C10 at the concrete duplicate-key directories. -/
theorem c10_witness :
    ((generate_file_pairs [entA] [entB1, entB2]).map Prod.fst).Nodup ∧
    generate_file_pairs [entC1, entC2] [entD] = [(entC1, entD), (entC2, entD)] ∧
    (∀ k, dir2MapLookup [entB1, entB2] k = lastWithKey [entB1, entB2] k) :=
  c10_pair_multiplicity [entA] [entB1, entB2] (by decide)

end TbCompare
